import Mathlib

/-!
Verification development for the flight-history resolution and
location-inference engine (`wimp.py`).

The Python source is shallowly embedded: text cells are lists of
characters (`Str`), aware datetimes are minutes-since-epoch paired with
a fixed offset (`DT`), fallible code returns `Except String` whose error
value names the Python exception class that would be raised, and the
mutable loop state of `data_validator` (the `_status_time_offset`
variable, which is only conditionally rebound) is threaded explicitly.
The per-invocation `_offsets_table` memo cache is semantically
transparent (it caches a pure lookup) and is therefore not materialised.
Reference tables (loaded from pickles at runtime, outside the sources)
are parameters of the embedded functions.
-/

/-- Python strings are modelled as lists of characters so that every
operation is a structural recursion the kernel can evaluate. -/
abbrev Str := List Char

/-- Coercion from a Lean string literal to the model's character lists. -/
def str (s : String) : Str := s.data

/-- Python `str.upper()` (ASCII, which covers all inputs in scope). -/
def pyUpper (s : Str) : Str := s.map Char.toUpper

/-- Python truthiness of a string: non-empty. -/
def pyTruthyStr (s : Str) : Bool := !s.isEmpty

/-- Worker for `pySplitWs`: single pass holding the current word reversed. -/
def pySplitWsGo : Str → Str → List Str
  | [], cur => if cur.isEmpty then [] else [cur.reverse]
  | c :: cs, cur =>
    if c.isWhitespace then
      if cur.isEmpty then pySplitWsGo cs [] else cur.reverse :: pySplitWsGo cs []
    else pySplitWsGo cs (c :: cur)

/-- Python `str.split()` with no argument: split on whitespace runs,
dropping empty fields. -/
def pySplitWs (s : Str) : List Str := pySplitWsGo s []

/-- Python `' '.join(parts)`. -/
def joinSpace : List Str → Str
  | [] => []
  | [p] => p
  | p :: ps => p ++ ' ' :: joinSpace ps

/-- Python `str.strip()`: remove leading and trailing whitespace. -/
def pyStrip (s : Str) : Str :=
  ((s.dropWhile Char.isWhitespace).reverse.dropWhile Char.isWhitespace).reverse

/-- Worker for `splitDigits`: `cur` is the segment being built (reversed)
and `inD` says whether that segment is a digit run. -/
def splitDigitsGo : Str → Str → Bool → List Str
  | [], cur, inD => if inD then [cur.reverse, []] else [cur.reverse]
  | c :: cs, cur, inD =>
    if c.isDigit == inD then splitDigitsGo cs (c :: cur) inD
    else cur.reverse :: splitDigitsGo cs [c] (!inD)

/-- Python `re.split(r'(\d+)', s)`: alternating non-digit and captured
digit segments, starting and ending with (possibly empty) non-digit
segments. -/
def splitDigits (s : Str) : List Str := splitDigitsGo s [] false

/-- Python `s.replace('0', '', 1)`: drop the first `'0'` found anywhere. -/
def removeFirstZero : Str → Str
  | [] => []
  | c :: cs => if c == '0' then cs else c :: removeFirstZero cs

/-- Numeric value of an all-digit string. -/
def digitsToNat (s : Str) : Nat := s.foldl (fun acc c => acc * 10 + (c.toNat - 48)) 0

/-- Python `int(s)` on the strings this program feeds it: succeeds on a
non-empty digit string, otherwise raises `ValueError`. -/
def pyInt (s : Str) : Except String Nat :=
  if !s.isEmpty && s.all Char.isDigit then .ok (digitsToNat s) else .error ("ValueError")

/-- Decimal digit to character. -/
def digitChar (d : Nat) : Char := Char.ofNat (48 + d)

/-- Fuelled decimal rendering (fuel keeps the recursion structural). -/
def natToStrGo : Nat → Nat → Str → Str
  | 0, _, acc => acc
  | fuel + 1, n, acc =>
    if n < 10 then digitChar n :: acc
    else natToStrGo fuel (n / 10) (digitChar (n % 10) :: acc)

/-- Python `f-string` rendering of a natural number. -/
def natToStr (n : Nat) : Str := natToStrGo (n + 1) n []

/-- Python `f-string` rendering of an integer (`-` sign when negative). -/
def intToStr (i : Int) : Str :=
  if i < 0 then '-' :: natToStr i.natAbs else natToStr i.toNat

/-- Two-digit zero padding, as produced by `strftime('%H')` / `('%M')`. -/
def pad2 (n : Nat) : Str := if n < 10 then '0' :: natToStr n else natToStr n

/-- Split on a single character (keeping empty fields), as a helper for
time-of-day parsing. -/
def splitOnChar (c : Char) : Str → List Str
  | [] => [[]]
  | x :: xs =>
    if x == c then [] :: splitOnChar c xs
    else match splitOnChar c xs with
      | g :: gs => (x :: g) :: gs
      | [] => [[x]]

/-- A short run of one or two digits, as matched by `strptime`'s `%H`,
`%M`, `%d`. -/
def shortDigits (s : Str) : Option Nat :=
  if !s.isEmpty && s.length ≤ 2 && s.all Char.isDigit then some (digitsToNat s) else none

/-- Parse `H:M` (one or two digits each, range-checked) to minutes after
midnight, as `strptime('%H:%M')` does. -/
def parseHM (s : Str) : Option Nat :=
  match splitOnChar ':' s with
  | [h, m] =>
    match shortDigits h, shortDigits m with
    | some hv, some mv => if hv ≤ 23 && mv ≤ 59 then some (hv * 60 + mv) else none
    | _, _ => none
  | _ => none

/-- Parse a fixed UTC offset string of the reference tables' `±HH:MM`
form to signed minutes, as `strptime`'s `%z` does. -/
def parseOffset (s : Str) : Option Int :=
  match s with
  | [sg, h1, h2, ':', m1, m2] =>
    if (sg == '+' || sg == '-') && h1.isDigit && h2.isDigit && m1.isDigit && m2.isDigit then
      let hv := digitsToNat [h1, h2]
      let mv := digitsToNat [m1, m2]
      if hv ≤ 23 && mv ≤ 59 then
        let total : Int := hv * 60 + mv
        some (if sg == '-' then -total else total)
      else none
    else none
  | _ => none

/-- Month-name abbreviation to month number (`strptime('%b')`,
case-insensitive). -/
def monthNum (s : Str) : Option Nat :=
  match s.map Char.toLower with
  | ['j', 'a', 'n'] => some 1
  | ['f', 'e', 'b'] => some 2
  | ['m', 'a', 'r'] => some 3
  | ['a', 'p', 'r'] => some 4
  | ['m', 'a', 'y'] => some 5
  | ['j', 'u', 'n'] => some 6
  | ['j', 'u', 'l'] => some 7
  | ['a', 'u', 'g'] => some 8
  | ['s', 'e', 'p'] => some 9
  | ['o', 'c', 't'] => some 10
  | ['n', 'o', 'v'] => some 11
  | ['d', 'e', 'c'] => some 12
  | _ => none

/-- Gregorian leap-year test. -/
def isLeap (y : Nat) : Bool := y % 4 == 0 && (y % 100 != 0 || y % 400 == 0)

/-- Cumulative day counts before each month in a non-leap year. -/
def cumDays (m : Nat) : Nat :=
  match m with
  | 1 => 0 | 2 => 31 | 3 => 59 | 4 => 90 | 5 => 120 | 6 => 151
  | 7 => 181 | 8 => 212 | 9 => 243 | 10 => 273 | 11 => 304 | _ => 334

/-- Length of a month. -/
def monthLen (y m : Nat) : Nat :=
  if m == 2 then (if isLeap y then 29 else 28)
  else if m == 4 || m == 6 || m == 9 || m == 11 then 30 else 31

/-- Proleptic Gregorian ordinal of a calendar date. -/
def toOrdinal (y m d : Nat) : Nat :=
  365 * (y - 1) + (y - 1) / 4 - (y - 1) / 100 + (y - 1) / 400 +
    cumDays m + (if 2 < m && isLeap y then 1 else 0) + d

/-- Parse a `DD Mon YYYY` date cell (the shape `strptime('%d %b %Y')`
accepts) to its day ordinal. -/
def parseDate (s : Str) : Option Nat :=
  match pySplitWs s with
  | [ds, ms, ys] =>
    match shortDigits ds, monthNum ms with
    | some d, some m =>
      if !ys.isEmpty && ys.length ≤ 4 && ys.all Char.isDigit then
        let y := digitsToNat ys
        if 1 ≤ d && d ≤ monthLen y m && 1 ≤ y then some (toOrdinal y m d) else none
      else none
    | _, _ => none
  | _ => none

/-- A timezone-aware datetime: the instant in minutes since the epoch in
UTC, plus the fixed offset (minutes) it is displayed in. -/
structure DT where
  utc : Int
  off : Int
deriving DecidableEq

/-- Build the aware datetime `strptime(f'{date} {time}{offset}',
'%d %b %Y %H:%M%z')` yields, when all three pieces parse. -/
def parseDT (dateS timeS offS : Str) : Option DT :=
  match parseDate dateS, parseHM timeS, parseOffset offS with
  | some day, some hm, some off => some ⟨(day : Int) * 1440 + (hm : Int) - off, off⟩
  | _, _, _ => none

/-- Wall-clock rendering `strftime('%H:%M')` of an aware datetime. -/
def fmtHM (t : DT) : Str :=
  let wall := (t.utc + t.off) % 1440
  pad2 ((wall / 60).toNat) ++ ':' :: pad2 ((wall % 60).toNat)

/-- One airline reference record (`ICAO`, `Name`, `Code`; an absent
carrier code is the empty string, which is falsy in Python). -/
structure AirlineRec where
  icao : Str
  name : Str
  code : Str
deriving DecidableEq

/-- Python `dict.get` over an association list; later insertions win, as
in a dict built by comprehension. -/
def pyDictGet (d : List (Str × α)) (k : Str) : Option α :=
  (d.reverse.find? (fun kv => kv.1 == k)).map (·.2)

/-- The airline indices `data_loader` builds plus the `multi` table
`airlines_add_multi_prefix` adds. -/
structure Airlines where
  by_icao : List (Str × AirlineRec)
  by_name : List (Str × AirlineRec)
  by_code : List (Str × AirlineRec)
  multi : List (Str × List Str)
deriving DecidableEq

/-- The `multi` map of `airlines_add_multi_prefix`: each airline name
whose proper prefix-extensions exist among the names maps to itself
followed by those extensions, in iteration order. -/
def buildMulti (names : List Str) : List (Str × List Str) :=
  names.filterMap (fun name =>
    let ms := names.filter (fun a => name.isPrefixOf a && a != name)
    if ms.isEmpty then none else some (name, name :: ms))

/-- Assemble the airline indices from a record list (as `data_loader`
and `airlines_add_multi_prefix` do; the record lists used here have
pairwise distinct keys, matching the dict semantics). -/
def mkAirlines (recs : List AirlineRec) : Airlines :=
  { by_icao := recs.map (fun r => (r.icao, r))
    by_name := recs.map (fun r => (r.name, r))
    by_code := (recs.filter (fun r => pyTruthyStr r.code)).map (fun r => (r.code, r))
    multi := buildMulti (recs.map (·.name)) }

/-- Inner lookup of `airlines_multi_codes`: first name-prefix hit in the
`multi` table wins; its member names are mapped to their carrier codes
through `by_name`. -/
def multiCodesFrom (al : Airlines) : List Str → Except String (Option (List Str))
  | [] => .ok none
  | p :: ps =>
    match pyDictGet al.multi p with
    | some ms =>
      if ms.isEmpty then multiCodesFrom al ps
      else
        match ms.mapM (fun n => (pyDictGet al.by_name n).map (·.code)) with
        | some codes => .ok (some codes)
        | none => .error ("AttributeError")
    | none => multiCodesFrom al ps

/-- Embedding of `airlines_multi_codes`: try the 1-word, 2-word, ...
prefixes of the airline name against the `multi` table. -/
def airlinesMultiCodes (al : Airlines) (airline_name : Str) : Except String (Option (List Str)) :=
  let ws := pySplitWs airline_name
  multiCodesFrom al ((List.range ws.length).map (fun i => joinSpace (ws.take (i + 1))))

/-- Embedding of `get_flight_history`: the uppercased input first, then
the carrier-code respelling when the prefix is a known ICAO code, then
the easyJet leading-zero variant. -/
def getFlightHistory (al : Airlines) (flight_number : Str) : Except String (Option (List Str)) :=
  if flight_number.isEmpty then .ok none
  else
    let fn := pyUpper flight_number
    match splitDigits fn with
    | [letters, numbers, _] =>
      match pyDictGet al.by_icao letters with
      | some icaoRec =>
        if pyTruthyStr icaoRec.code then
          let vs := [fn, icaoRec.code ++ numbers]
          if icaoRec.code == str "U2" && numbers.head? == some '0' then
            .ok (some (vs ++ [icaoRec.code ++ removeFirstZero numbers]))
          else .ok (some vs)
        else .ok (some [fn])
      | none => .ok (some [fn])
    | _ => .error ("ValueError")

/-- Embedding of `get_flight_number_resolved`: rebuild the flight number
from carrier-code/ICAO identity (sister codes fanned out through the
`multi` table), with the numeric suffix re-parsed as an integer. -/
def getFlightNumberResolved (al : Airlines) (flight_number : Str) : Except String (Option (List Str)) :=
  if flight_number.isEmpty then .ok none
  else
    match flight_number with
    | c0 :: c1 :: rest =>
      let split : Except String (Str × Str) :=
        if (c0.isAlpha && c1.isDigit) || (c1.isAlpha && c0.isDigit) then
          .ok ([c0, c1], rest)
        else
          match splitDigits (pyUpper flight_number) with
          | [letters, numbers, _] => .ok (letters, numbers)
          | _ => .error ("ValueError")
      match split with
      | .error e => .error e
      | .ok (letters, numbers) =>
        match pyDictGet al.by_code letters, pyDictGet al.by_icao letters with
        | some byCode, _ =>
          (match airlinesMultiCodes al byCode.name with
          | .error e => .error e
          | .ok mc =>
            match pyInt numbers with
            | .error e => .error e
            | .ok n =>
              match mc with
              | some codes =>
                if codes.isEmpty then .ok (some [byCode.code ++ natToStr n])
                else .ok (some ((codes.filter pyTruthyStr).map (fun c => c ++ natToStr n)))
              | none => .ok (some [byCode.code ++ natToStr n]))
        | none, some byIcao =>
          (match airlinesMultiCodes al byIcao.name with
          | .error e => .error e
          | .ok mc =>
            match pyInt numbers with
            | .error e => .error e
            | .ok n =>
              match mc with
              | some codes =>
                if codes.isEmpty then .ok (some [byIcao.code ++ natToStr n])
                else .ok (some (codes.map (fun c => c ++ natToStr n)))
              | none => .ok (some [byIcao.code ++ natToStr n]))
        | none, none => .ok (some [])
    | _ => .error ("IndexError")

/-- One airport reference record; an absent timezone offset or name is
the empty string (falsy in Python). -/
structure AirportRec where
  tz_offset : Str
  tz_name : Str
deriving DecidableEq

/-- The `by_iata` airport index. -/
abbrev Airports := List (Str × AirportRec)

/-- Embedding of `get_airport_timezone_offset`: `None` unless the IATA
code resolves to a record with a truthy fixed-offset string. -/
def getAirportTimezoneOffset (ap : Airports) (airport_iata : Str) : Option Str :=
  if airport_iata.isEmpty then none
  else
    match pyDictGet ap (pyUpper airport_iata) with
    | none => none
    | some a => if pyTruthyStr a.tz_offset then some a.tz_offset else none

/-- Embedding of `get_airport_timezone_name`. -/
def getAirportTimezoneName (ap : Airports) (airport_iata : Str) : Option Str :=
  if airport_iata.isEmpty then none
  else
    match pyDictGet ap (pyUpper airport_iata) with
    | none => none
    | some a => if pyTruthyStr a.tz_name then some a.tz_name else none

/-- One raw leg row: the positional string cells of the scraped table. -/
abbrev PyRow := List Str

/-- The dynamically-typed value under the raw batch's single key: either
a matrix of rows or one bare row (a flat list of strings). -/
inductive PyData where
  | mat (rows : List PyRow)
  | row (r : PyRow)
deriving DecidableEq

/-- Python row indexing `op[i]`, raising `IndexError` past the end. -/
def pyGet (r : PyRow) (i : Nat) : Except String Str :=
  match r.get? i with
  | some s => .ok s
  | none => .error ("IndexError")

/-- Embedding of `re.search(r'(?<=\()([A-Z]{3})(?=\))', s)`: the first
three-uppercase-letter group enclosed in parentheses. -/
def extractCode : Str → Option Str
  | '(' :: a :: b :: c :: ')' :: rest =>
    if a.isUpper && b.isUpper && c.isUpper then some [a, b, c]
    else extractCode (a :: b :: c :: ')' :: rest)
  | _ :: rest => extractCode rest
  | [] => none

/-- Embedding of the `isinstance(_data[0], str)` normalisation: a bare
row is wrapped into a one-row matrix; indexing an empty value raises. -/
def normalizeData : PyData → Except String (List PyRow)
  | .mat [] => .error ("IndexError")
  | .mat rows => .ok rows
  | .row [] => .error ("IndexError")
  | .row r => .ok [r]

/-- First index satisfying the predicate, as `[i for i, el in ...][0]`. -/
def findFirstIdx (p : α → Bool) : List α → Option Nat
  | [] => none
  | x :: xs => if p x then some 0 else (findFirstIdx p xs).map (· + 1)

/-- Last index satisfying the predicate, as `[i for i, el in ...][-1]`. -/
def findLastIdx (p : α → Bool) : List α → Option Nat
  | [] => none
  | x :: xs =>
    match findLastIdx p xs with
    | some i => some (i + 1)
    | none => if p x then some 0 else none

/-- Fallible `mapM` over `Except`, written out so proofs can recurse on
it directly. -/
def exMapM (f : α → Except String β) : List α → Except String (List β)
  | [] => .ok []
  | x :: xs =>
    match f x with
    | .error e => .error e
    | .ok y =>
      match exMapM f xs with
      | .error e => .error e
      | .ok ys => .ok (y :: ys)

/-- The slice bounds of `data_validator`'s `short` windowing: from the
last `Scheduled`-prefixed status (start of list when none) through the
first `Landed`-prefixed status inclusive (end of list when none; the
status list is exactly as long as the row list). -/
def windowBounds (ss : List Str) : Nat × Nat :=
  ((findLastIdx (fun s => (str "Scheduled").isPrefixOf s) ss).getD 0,
   match findFirstIdx (fun s => (str "Landed").isPrefixOf s) ss with
   | some i => i + 1
   | none => ss.length)

/-- The `short` windowing step of `data_validator`: restrict the row
matrix to `rows[start:stop]` where the bounds come from the status
column (`IndexError` when a row lacks that column). -/
def pyWindow (rows : List PyRow) : Except String (List PyRow) :=
  match exMapM (fun r => pyGet r 3) rows with
  | .error e => .error e
  | .ok ss =>
    let b := windowBounds ss
    .ok ((rows.take b.2).drop b.1)

/-- Embedding of `re.match(r'[0-9]{2}:[0-9]{2}', tok)`: a prefix match
of two digits, a colon, and two digits, yielding `group(0)`. -/
def matchHM : Str → Option Str
  | a :: b :: ':' :: c :: d :: _ =>
    if a.isDigit && b.isDigit && c.isDigit && d.isDigit then some [a, b, ':', c, d] else none
  | _ => none

/-- One validated flight leg. The `subject` cell holds the other axis'
identifier (aircraft registration for a flight query and vice versa). -/
structure Leg where
  subject : Str
  std : DT
  atd : Option DT
  sta : DT
  status : Str
  status_time : Option DT
  fromIata : Str
  toIata : Str
  timeline : Str
deriving DecidableEq

/-- The timeline classification at the end of `data_validator`'s row
loop: `past` when a status timestamp exists strictly before now, else
`future` when the scheduled departure is strictly after now, else the
literal third label. -/
def classifyTimeline (stime : Option DT) (std : DT) (now : Int) : Str :=
  if (match stime with | some t => decide (t.utc < now) | none => false) then str "past"
  else if std.utc > now then str "future"
  else str "not past nor future"

/-- Leg constructor used by the row loop; the timeline is computed from
the same status-time and scheduled-departure values that are stored. -/
def mkLeg (subj : Str) (std : DT) (atd : Option DT) (sta : DT) (status : Str)
    (stime : Option DT) (fr toc : Str) (now : Int) : Leg :=
  { subject := subj, std := std, atd := atd, sta := sta, status := status,
    status_time := stime, fromIata := fr, toIata := toc,
    timeline := classifyTimeline stime std now }

/-- Process one raw row as `data_validator`'s loop body does. The result
is `none` for a skipped row or `some` leg, paired with the value of the
conditionally-rebound `_status_time_offset` variable after the row
(reading it while unbound raises `NameError`). -/
def processRow (ap : Airports) (now : Int) (r : PyRow) (st : Option Str) :
    Except String (Option Leg × Option Str) :=
  match pyGet r 3 with
  | .error e => .error e
  | .ok status3 =>
  if status3 == str "Unknown" then .ok (none, st)
  else
  match pyGet r 15 with
  | .error e => .error e
  | .ok fromField =>
  match extractCode fromField with
  | none => .error ("AttributeError")
  | some fr =>
  match getAirportTimezoneOffset ap fr with
  | none => .ok (none, st)
  | some fromOff =>
  match pyGet r 18 with
  | .error e => .error e
  | .ok toField =>
  match extractCode toField with
  | none => .error ("AttributeError")
  | some toc =>
  match getAirportTimezoneOffset ap toc with
  | none => .ok (none, st)
  | some toOff =>
  match pyGet r 1 with
  | .error e => .error e
  | .ok dateS =>
  match pyGet r 6 with
  | .error e => .error e
  | .ok stdS =>
  match parseDT (pyStrip dateS) stdS fromOff with
  | none => .error ("ValueError")
  | some std =>
  match pyGet r 12 with
  | .error e => .error e
  | .ok staS =>
  match parseDT (pyStrip dateS) staS toOff with
  | none => .error ("ValueError")
  | some sta =>
  match pyGet r 9 with
  | .error e => .error e
  | .ok atdS =>
  let atd := parseDT (pyStrip dateS) atdS fromOff
  let toks := pySplitWs status3
  if toks.isEmpty then .error ("ValueError")
  else
  match pyGet r 0 with
  | .error e => .error e
  | .ok subj =>
  match matchHM (toks.getLastD []) with
  | some five =>
    let label := joinSpace (toks.dropLast)
    let offUsed? : Except String Str :=
      if label == str "Landed" || label == str "Estimated" || label == str "Delayed" then
        .ok toOff
      else if label == str "Estimated departure" then .ok fromOff
      else
        match st with
        | some stale => .ok stale
        | none => .error ("NameError")
    match offUsed? with
    | .error e => .error e
    | .ok offUsed =>
      match parseDT (pyStrip dateS) five offUsed with
      | none => .error ("ValueError")
      | some stime =>
        match getAirportTimezoneName ap fr with
        | none => .error ("TypeError")
        | some _ =>
          .ok (some (mkLeg (pyStrip subj) std atd sta label (some stime) fr toc now),
               some offUsed)
  | none =>
    let label := joinSpace toks
    match getAirportTimezoneName ap fr with
    | none => .error ("TypeError")
    | some _ =>
      .ok (some (mkLeg (pyStrip subj) std atd sta label none fr toc now), st)

/-- The row loop of `data_validator`, threading the
`_status_time_offset` state and collecting emitted legs in order. -/
def processRows (ap : Airports) (now : Int) : List PyRow → Option Str → Except String (List Leg)
  | [], _ => .ok []
  | r :: rest, st =>
    match processRow ap now r st with
    | .error e => .error e
    | .ok (res, st') =>
      match processRows ap now rest st' with
      | .error e => .error e
      | .ok legs =>
        .ok (match res with
             | none => legs
             | some leg => leg :: legs)

/-- Embedding of `data_validator`: `now` is the current instant in UTC
minutes (the per-row `_now` conversion to the origin's zone preserves
the instant, so comparisons only need the instant). -/
def dataValidator (ap : Airports) (now : Int) (name : Str) (raw : List (Str × PyData))
    (short : Bool) : Except String (Option (List Leg)) :=
  if raw.isEmpty then .ok none
  else
    match raw with
    | [(_k, data)] =>
      if name == str "flight_number" || name == str "aircraft_reg" then
        match normalizeData data with
        | .error e => .error e
        | .ok rows =>
          match (if short then pyWindow rows else .ok rows) with
          | .error e => .error e
          | .ok rows2 =>
            match processRows ap now rows2 none with
            | .error e => .error e
            | .ok legs => .ok (some legs)
      else .ok none
    | _ => .error ("ValueError")

/-- A leg whose registration cell is considered reliable by
`get_aircraft_reg_from_flight` (more than one character). -/
def legReliable (l : Leg) : Bool := decide (1 < l.subject.length)

/-- A leg with status exactly `Landed` and timeline `past`. -/
def legLandedPast (l : Leg) : Bool := l.status == str "Landed" && l.timeline == str "past"

/-- The retention loop of `get_aircraft_reg_from_flight`: keep reliable
legs, stopping after (and including) the first reliable `Landed`/`past`
leg. -/
def flightsFiltered : List Leg → List Leg
  | [] => []
  | f :: fs =>
    if legReliable f then
      if legLandedPast f then [f] else f :: flightsFiltered fs
    else flightsFiltered fs

/-- Embedding of `get_aircraft_reg_from_flight`. -/
def getAircraftRegFromFlight (flight_history : List Leg) : Option Str :=
  if flight_history.isEmpty then none
  else
    let fs := flightsFiltered flight_history
    if fs.length == 1 then (fs.get? 0).map (·.subject)
    else if fs.length > 1 then
      match fs.getLast? with
      | some last =>
        if legLandedPast last then (fs.get? (fs.length - 2)).map (·.subject)
        else none
      | none => none
    else none

/-- The location estimate `get_aircraft_location` assembles. An absent
dict key and a key stored with value `None` both read back as `None`
through `dict.get`, so both are modelled as `none`. -/
structure LocEstimate where
  last_landed_location : Option Str := none
  last_landed_sta : Option DT := none
  last_landed_ata : Option DT := none
  next_destination : Option Str := none
  next_std : Option DT := none
  next_atd : Option DT := none
  next_sta : Option DT := none
  next_status : Option Str := none
  next_status_time : Option DT := none
deriving DecidableEq

/-- Embedding of `get_aircraft_location`: scan for the first `Landed`
leg; the loop index `i` ends at the history length when none exists, and
the `i > 0` guard then still reads the leg at `i - 1`. -/
def getAircraftLocation (aircraft_history : List Leg) : Option LocEstimate :=
  if aircraft_history.isEmpty then none
  else
    let i := (findFirstIdx (fun l => l.status == str "Landed") aircraft_history).getD
      aircraft_history.length
    let base : LocEstimate :=
      match aircraft_history.get? i with
      | some leg =>
        { last_landed_location := some leg.toIata
          last_landed_sta := some leg.sta
          last_landed_ata := leg.status_time }
      | none => {}
    if i > 0 then
      match aircraft_history.get? (i - 1) with
      | some prev =>
        some { base with
               next_destination := some prev.toIata
               next_std := some prev.std
               next_atd := prev.atd
               next_sta := some prev.sta
               next_status := some prev.status
               next_status_time := prev.status_time }
      | none => some base
    else some base

/-- Python truthiness of a fetched fan-out value: `None`, an empty
matrix and an empty flat list are all falsy. -/
def pyTruthyData : Option PyData → Bool
  | none => false
  | some (.mat rows) => !rows.isEmpty
  | some (.row r) => !r.isEmpty

/-- The merge step at the end of `get_api_data`: drop falsy values from
the joined result mapping, return the remaining mapping when exactly one
entry is left, otherwise report a mismatch and return `None`. -/
def getApiDataMerged (ret : List (Str × Option PyData)) : Option (List (Str × Option PyData)) :=
  let f := ret.filter (fun kv => pyTruthyData kv.2)
  if f.length == 1 then some f else none

/-- Python f-string rendering of a possibly-`None` string value. -/
def fmtOptStr : Option Str → Str
  | some s => s
  | none => str "None"

/-- Embedding of `generate_output`. The global `aircraft_reg` the
original reads is a parameter; error values name the exception Python
would raise on malformed estimates. -/
def generateOutput (aircraft_reg : Str) (d : Option LocEstimate) : Except String (Option Str) :=
  match d with
  | none => .ok none
  | some d =>
    let loc0 := fmtOptStr d.last_landed_location
    match d.last_landed_ata with
    | none => .error ("AttributeError")
    | some ata =>
      match d.last_landed_sta with
      | none => .error ("TypeError")
      | some sta =>
        let time0 := fmtHM ata
        let delay0 : Int := ata.utc - sta.utc
        let sign0 := if delay0 ≥ 0 then str "+" else []
        if !(match d.next_destination with | some s => pyTruthyStr s | none => false) then
          .ok (some (str "\\_" ++ loc0 ++ str "_ " ++ time0 ++ str " (" ++ sign0 ++
            intToStr delay0 ++ str ") | No further scheduled flights for: " ++ aircraft_reg))
        else
          let loc1 := loc0
          let loc2 := fmtOptStr d.next_destination
          match d.next_atd with
          | none =>
            match (match d.next_status_time with | some t => some t | none => d.next_std) with
            | none => .error ("AttributeError")
            | some nst =>
              match d.next_std with
              | none => .error ("TypeError")
              | some nstd =>
                match d.next_sta with
                | none => .error ("AttributeError")
                | some nsta =>
                  let time1 := '~' :: fmtHM nst
                  let delay1 : Int := nst.utc - nstd.utc
                  let sign1 := if delay1 ≥ 0 then str "+" else []
                  let time2 := '~' :: fmtHM nsta
                  .ok (some (str "\\_" ++ loc0 ++ str "_ " ++ time0 ++ str " (" ++ sign0 ++
                    intToStr delay0 ++ str ") | _" ++ loc1 ++ str "_/ " ++ time1 ++
                    str " (" ++ sign1 ++ intToStr delay1 ++ str ") | \\_" ++ loc2 ++
                    str "_ " ++ time2 ++ str " (--)"))
          | some atd =>
            match d.next_std with
            | none => .error ("TypeError")
            | some nstd =>
              match d.next_status_time with
              | none => .error ("AttributeError")
              | some nst =>
                match d.next_sta with
                | none => .error ("TypeError")
                | some nsta =>
                  let time1 := fmtHM atd
                  let delay1 : Int := atd.utc - nstd.utc
                  let sign1 := if delay1 ≥ 0 then str "+" else []
                  let time2 := '~' :: fmtHM nst
                  let delay2 : Int := nst.utc - nsta.utc
                  let sign2 := if delay2 ≥ 0 then str "+" else []
                  .ok (some (str "\\_" ++ loc0 ++ str "_ " ++ time0 ++ str " (" ++ sign0 ++
                    intToStr delay0 ++ str ") | _" ++ loc1 ++ str "_/ " ++ time1 ++
                    str " (" ++ sign1 ++ intToStr delay1 ++ str ") | \\_" ++ loc2 ++
                    str "_ " ++ time2 ++ str " (" ++ sign2 ++ intToStr delay2 ++ str ")"))

/-- Spec-side timeline classification, phrased as the specification
describes it: `past` when a status timestamp exists and is strictly
before now regardless of scheduled times, otherwise `future` when the
scheduled departure is strictly after now, otherwise the third label
(called `indeterminate` by the specification). -/
def specTimeline (stime : Option DT) (std : DT) (now : Int) : Str :=
  match stime with
  | some t =>
    if t.utc < now then str "past"
    else if std.utc > now then str "future" else str "not past nor future"
  | none => if std.utc > now then str "future" else str "not past nor future"

/-- Spec-side description of the Aircraft Identifier's scan: the legs up
to and including the first reliable `Landed`/`past` leg. -/
def takeThroughLandedPast : List Leg → List Leg
  | [] => []
  | l :: ls =>
    l :: (if legReliable l && legLandedPast l then [] else takeThroughLandedPast ls)

/-- Spec-side retained subsequence: reliable legs of the scanned group. -/
def retainedSpec (legs : List Leg) : List Leg :=
  (takeThroughLandedPast legs).filter legReliable

/-- Spec-side statement of the Aircraft Identifier's answer, following
the claim: exactly one retained leg gives its registration; more than
one whose last is the `Landed`/`past` leg gives the second-to-last's;
every other shape gives no answer. -/
def specAircraftReg (legs : List Leg) : Option Str :=
  match retainedSpec legs with
  | [l] => some l.subject
  | ls =>
    match ls.getLast? with
    | some last =>
      if 1 < ls.length && legLandedPast last then (ls.get? (ls.length - 2)).map (·.subject)
      else none
    | none => none

/-- Spec-side statement of the fan-out merge policy: after removing
entries with empty values, return the mapping exactly when one entry
remains, otherwise no usable result. -/
def specMergePolicy (ret : List (Str × Option PyData)) : Option (List (Str × Option PyData)) :=
  match ret.filter (fun kv => pyTruthyData kv.2) with
  | [e] => some [e]
  | _ => none

/-- A flight number of the spec's `<2-letter code><digits>` shape. -/
def validFlightNumber : Str → Bool
  | a :: b :: rest => a.isAlpha && b.isAlpha && !rest.isEmpty && rest.all Char.isDigit
  | _ => false

/-- Substring test used to state "the output line contains ...". -/
def strContains : Str → Str → Bool
  | hay, needle =>
    if needle.isPrefixOf hay then true
    else match hay with
      | [] => false
      | _ :: t => strContains t needle

/-- Test fixture: airports table with the two airports the sample rows
use. -/
def testAirports : Airports :=
  [(str "BGY", ⟨str "+01:00", str "Europe/Rome"⟩),
   (str "KRK", ⟨str "+01:00", str "Europe/Warsaw"⟩)]

/-- Test fixture: an airline table holding the low-cost carrier (ICAO
`EZY`, carrier code `U2`). -/
def ezAirlines : Airlines := mkAirlines [⟨str "EZY", str "easyJet", str "U2"⟩]

/-- Test fixture: the current instant (UTC minutes), later than every
timestamp in the sample rows. -/
def nowUtc : Int := 2000000000

/-- Build a 19-cell raw row with the positional layout the scraper
produces (0 subject, 1 date, 3 status, 6 scheduled departure, 9 actual
departure, 12 scheduled arrival, 15 origin, 18 destination). -/
def mkRow (subj date status std atd sta fr toc : String) : PyRow :=
  [str subj, str date, [], str status, [], [], str std, [], [], str atd, [], [],
   str sta, [], [], str fr, [], [], str toc]

/-- Test fixture: a landed leg row. -/
def rowLanded : PyRow :=
  mkRow "G-EZBY " "01 Jan 2023" "Landed 19:06" "18:00" "18:05" "19:00"
    "Krakow (KRK)" "Bergamo (BGY)"

/-- Test fixture: a still-scheduled leg row. -/
def rowSched : PyRow :=
  mkRow "G-EZTD" "02 Jan 2023" "Scheduled" "10:00" "" "12:00"
    "Bergamo (BGY)" "Krakow (KRK)"

/-- Test fixture: a row with a recognized status-with-time label. -/
def rowEst : PyRow :=
  mkRow "G-EZBB" "01 Jan 2023" "Estimated 20:00" "19:30" "" "21:00"
    "Krakow (KRK)" "Bergamo (BGY)"

/-- Test fixture: a row whose status carries a time under an
unrecognized label. -/
def rowDiverted : PyRow :=
  mkRow "G-AAAA" "01 Jan 2023" "Diverted 12:34" "08:00" "" "09:00"
    "Krakow (KRK)" "Bergamo (BGY)"

/-- Test fixture: a validated scheduled leg for the Location Inferencer. -/
def schedLeg : Leg :=
  { subject := str "G-EZTD", std := ⟨600, 60⟩, atd := none, sta := ⟨720, 60⟩,
    status := str "Scheduled", status_time := none,
    fromIata := str "BGY", toIata := str "KRK", timeline := str "future" }

/-- Test fixture: the synthetic estimate of the Output Formatter check
(last landed at BGY, scheduled 19:00, actual 19:06, no next leg). -/
def bgyEstimate : LocEstimate :=
  { last_landed_location := some (str "BGY"),
    last_landed_sta := some ⟨1080, 60⟩,
    last_landed_ata := some ⟨1086, 60⟩ }

/-- Test fixture: the validated leg `data_validator` produces from
`rowLanded` (values checked against the embedding). -/
def legLandedVal : Leg :=
  { subject := str "G-EZBY", std := ⟨1063471260, 60⟩, atd := some ⟨1063471265, 60⟩,
    sta := ⟨1063471320, 60⟩, status := str "Landed",
    status_time := some ⟨1063471326, 60⟩, fromIata := str "KRK", toIata := str "BGY",
    timeline := str "past" }

theorem charDigit_toUpper_eq (c : Char) (h : c.isDigit = true) : c.toUpper = c := by
  simp [Char.isDigit, UInt32.le_def, BitVec.le_def] at h
  unfold Char.toUpper
  rw [if_neg]
  simp [Char.toNat, UInt32.toNat]
  omega

theorem charAlpha_toUpper_not_digit (c : Char) (h : c.isAlpha = true) :
    c.toUpper.isDigit = false := by
  simp [Char.isAlpha, Char.isLower, Char.isUpper, UInt32.le_def, BitVec.le_def] at h
  unfold Char.toUpper
  dsimp only
  by_cases hc : 97 ≤ c.toNat ∧ c.toNat ≤ 122
  · rw [if_pos hc]
    have hv : (c.toNat - 32).isValidChar := Or.inl (by omega)
    simp [Char.ofNat, hv, Char.ofNatAux, Char.isDigit, UInt32.le_def, BitVec.le_def]
    omega
  · rw [if_neg hc]
    simp only [Char.toNat, UInt32.toNat] at hc
    simp [Char.isDigit, UInt32.le_def, BitVec.le_def]
    omega

theorem splitDigitsGo_all_digits (l : Str) (cur : Str) (h : ∀ c ∈ l, c.isDigit = true) :
    splitDigitsGo l cur true = [cur.reverse ++ l, []] := by
  induction l generalizing cur with
  | nil => simp [splitDigitsGo]
  | cons c cs ih =>
    have hc : c.isDigit = true := h c (List.mem_cons_self c cs)
    rw [splitDigitsGo, if_pos (by simp [hc])]
    rw [ih (c :: cur) (fun d hd => h d (List.mem_cons_of_mem c hd))]
    simp

theorem splitDigits_two_alpha_digits (a b : Char) (ds : Str)
    (ha : a.isDigit = false) (hb : b.isDigit = false) (hne : ds ≠ [])
    (hds : ∀ c ∈ ds, c.isDigit = true) :
    splitDigits (a :: b :: ds) = [[a, b], ds, []] := by
  unfold splitDigits
  rw [splitDigitsGo, if_pos (by simp [ha])]
  rw [splitDigitsGo, if_pos (by simp [hb])]
  cases ds with
  | nil => exact absurd rfl hne
  | cons d ds' =>
    have hd : d.isDigit = true := hds d (List.mem_cons_self d ds')
    rw [splitDigitsGo, if_neg (by simp [hd])]
    simp only [Bool.not_false]
    rw [splitDigitsGo_all_digits ds' [d] (fun c hc => hds c (List.mem_cons_of_mem d hc))]
    simp

/-- C4 (amended): for every flight number of the form
`<2-letter code><digits>`, `get_flight_history`'s variant sequence
contains the uppercased input (hence the input verbatim exactly when it
is already uppercase); the resolution operation
`get_flight_number_resolved` does not share this guarantee (see the
counterexample). -/
theorem c4_history_contains_uppercased_input (al : Airlines) (fn : Str)
    (h : validFlightNumber fn = true) :
    ∃ vs, getFlightHistory al fn = .ok (some vs) ∧ pyUpper fn ∈ vs := by
  cases fn with
  | nil => simp [validFlightNumber] at h
  | cons a t =>
    cases t with
    | nil => simp [validFlightNumber] at h
    | cons b rest =>
      simp only [validFlightNumber, Bool.and_eq_true, Bool.not_eq_true'] at h
      obtain ⟨⟨⟨ha, hb⟩, hne⟩, hall⟩ := h
      have hA : (a.toUpper).isDigit = false := charAlpha_toUpper_not_digit a ha
      have hB : (b.toUpper).isDigit = false := charAlpha_toUpper_not_digit b hb
      have hDSne : rest.map Char.toUpper ≠ [] := by
        cases rest with
        | nil => simp [List.isEmpty] at hne
        | cons x xs => simp
      have hDS : ∀ c ∈ rest.map Char.toUpper, c.isDigit = true := by
        intro c hc
        obtain ⟨d, hd, rfl⟩ := List.mem_map.mp hc
        have hdd : d.isDigit = true := by
          have := List.all_eq_true.mp hall d hd
          simpa using this
        rw [charDigit_toUpper_eq d hdd]
        exact hdd
      have hsplit : splitDigits (pyUpper (a :: b :: rest)) =
          [[a.toUpper, b.toUpper], rest.map Char.toUpper, []] := by
        have : pyUpper (a :: b :: rest) = a.toUpper :: b.toUpper :: rest.map Char.toUpper := rfl
        rw [this]
        exact splitDigits_two_alpha_digits _ _ _ hA hB hDSne hDS
      unfold getFlightHistory
      simp only [List.isEmpty_cons, Bool.false_eq_true, if_false, hsplit]
      cases hlook : pyDictGet al.by_icao [a.toUpper, b.toUpper] with
      | none =>
        exact ⟨[pyUpper (a :: b :: rest)], rfl, List.mem_singleton.mpr rfl⟩
      | some icaoRec =>
        by_cases hcode : pyTruthyStr icaoRec.code = true
        · simp only [hcode, if_true]
          by_cases hez : (icaoRec.code == str "U2" &&
              (rest.map Char.toUpper).head? == some '0') = true
          · simp only [hez, if_true]
            exact ⟨_, rfl, List.mem_cons_self _ _⟩
          · simp only [Bool.not_eq_true] at hez
            simp only [hez, if_false]
            exact ⟨_, rfl, List.mem_cons_self _ _⟩
        · simp only [Bool.not_eq_true] at hcode
          simp only [hcode, if_false]
          exact ⟨[pyUpper (a :: b :: rest)], rfl, List.mem_singleton.mpr rfl⟩

/-- Witness for C4's amended theorem at a concrete input. -/
theorem c4_history_contains_uppercased_input_witness :
    validFlightNumber (str "ez123") = true ∧
    ∃ vs, getFlightHistory ezAirlines (str "ez123") = .ok (some vs) ∧
      pyUpper (str "ez123") ∈ vs :=
  ⟨by decide, c4_history_contains_uppercased_input ezAirlines (str "ez123") (by decide)⟩

/-- Counterexample for C4 as stated: a syntactically valid flight number
whose code is unknown makes `get_flight_number_resolved` return an empty
variant list, which does not contain the original input. -/
theorem c4_resolved_omits_original :
    validFlightNumber (str "AB12") = true ∧
    getFlightNumberResolved (mkAirlines []) (str "AB12") = .ok (some []) ∧
    str "AB12" ∉ ([] : List Str) :=
  ⟨by decide, rfl, by simp⟩

/-- Counterexample for C7 as stated: with the low-cost carrier's table
entry (ICAO `EZY`, code `U2`), neither resolver operation returns a
variant set containing both `U2075` and `U275` for the input `U2075`:
the resolution operation strips the zero but drops the original, and the
history operation keeps the original but never strips the zero (its
prefix split takes only the letter `U`). -/
theorem c7_u2075_counterexample :
    getFlightNumberResolved ezAirlines (str "U2075") = .ok (some [str "U275"]) ∧
    getFlightHistory ezAirlines (str "U2075") = .ok (some [str "U2075"]) ∧
    str "U2075" ∉ [str "U275"] ∧
    str "U275" ∉ [str "U2075"] :=
  ⟨rfl, rfl, by decide, by decide⟩

/-- C7 (amended): the leading-zero-stripped variant `U275` does appear
together with `U2075` when the input carries the ICAO prefix
(`get_flight_history` on `EZY075`); for the carrier-code input `U2075`
itself, `get_flight_number_resolved` emits `U275` alone (the integer
re-parse drops the zero and the original is not kept). -/
theorem c7_zero_strip_needs_icao_prefix :
    getFlightHistory ezAirlines (str "EZY075") =
      .ok (some [str "EZY075", str "U2075", str "U275"]) ∧
    getFlightNumberResolved ezAirlines (str "U2075") = .ok (some [str "U275"]) ∧
    str "U275" ∈ [str "EZY075", str "U2075", str "U275"] :=
  ⟨rfl, rfl, by decide⟩

/-- C9: on the synthetic estimate (landed at BGY, schedule 19:00, actual
19:06, no next leg) the Output Formatter emits the exact line below,
which contains the landing time `19:06`, the signed delay `+6`, and the
no-further-scheduled-flights notice. -/
theorem c9_output_no_next_leg :
    generateOutput (str "G-EZBY") (some bgyEstimate) =
      .ok (some (str "\\_BGY_ 19:06 (+6) | No further scheduled flights for: G-EZBY")) ∧
    strContains (str "\\_BGY_ 19:06 (+6) | No further scheduled flights for: G-EZBY")
      (str "19:06") = true ∧
    strContains (str "\\_BGY_ 19:06 (+6) | No further scheduled flights for: G-EZBY")
      (str "+6") = true ∧
    strContains (str "\\_BGY_ 19:06 (+6) | No further scheduled flights for: G-EZBY")
      (str "No further scheduled flights") = true :=
  ⟨rfl, rfl, rfl, rfl⟩

/-- C1 (code bug): on a one-leg history whose only status is `Scheduled`
(no `Landed` leg anywhere), `get_aircraft_location` still populates the
next-leg fields from the last leg, because the `i > 0` guard also holds
when the scan falls off the end of the list; the claim (and the code's
own comment) require next-leg fields only when a `Landed` leg was found
at a positive index. -/
theorem c1_no_landed_still_populates_next :
    getAircraftLocation [schedLeg] =
      some { last_landed_location := none, last_landed_sta := none, last_landed_ata := none,
             next_destination := some (str "KRK"), next_std := some ⟨600, 60⟩,
             next_atd := none, next_sta := some ⟨720, 60⟩,
             next_status := some (str "Scheduled"), next_status_time := none } ∧
    ∀ l ∈ [schedLeg], l.status ≠ str "Landed" := by
  refine ⟨rfl, ?_⟩
  intro l hl
  rw [List.mem_singleton] at hl
  subst hl
  decide

/-- C2 (code bug): a row whose status ends in an `HH:MM` token under an
unrecognized label crashes `data_validator` with a `NameError` when it
is the first such row (the offset variable is still unbound), and when a
recognized status-with-time row came earlier the leg is emitted with its
status timestamp set from the stale offset, not left unset as the claim
requires. -/
theorem c2_unrecognized_status_crashes_or_sets_time :
    dataValidator testAirports nowUtc (str "flight_number")
      [(str "U21234", PyData.mat [rowDiverted])] true = .error ("NameError") ∧
    (dataValidator testAirports nowUtc (str "flight_number")
      [(str "U21234", PyData.mat [rowEst, rowDiverted])] true).map
        (fun o => o.map (fun legs => legs.map (fun l => (l.status, l.status_time.isSome)))) =
      .ok (some [(str "Estimated", true), (str "Diverted", true)]) :=
  ⟨rfl, rfl⟩

/-- C10: a raw batch whose single value is one bare row (first element a
string) is processed exactly like the one-row matrix containing it. -/
theorem c10_single_row_wrapped (ap : Airports) (now : Int) (name : Str) (k : Str)
    (r : PyRow) (short : Bool) (hr : r ≠ []) :
    dataValidator ap now name [(k, PyData.row r)] short =
    dataValidator ap now name [(k, PyData.mat [r])] short := by
  cases r with
  | nil => exact absurd rfl hr
  | cons x xs => rfl

/-- Witness for C10 at a concrete batch. -/
theorem c10_single_row_wrapped_witness :
    dataValidator testAirports nowUtc (str "flight_number")
      [(str "U21234", PyData.row rowLanded)] true =
    dataValidator testAirports nowUtc (str "flight_number")
      [(str "U21234", PyData.mat [rowLanded])] true :=
  c10_single_row_wrapped testAirports nowUtc (str "flight_number") (str "U21234")
    rowLanded true (by decide)

/-- C6: the fan-out merge of `get_api_data` equals the specified policy:
entries with empty values are removed, the mapping is returned exactly
when one entry remains, and zero or several non-empty entries yield no
usable result. -/
theorem c6_merge_policy (ret : List (Str × Option PyData)) :
    getApiDataMerged ret = specMergePolicy ret := by
  unfold getApiDataMerged specMergePolicy
  cases h : ret.filter (fun kv => pyTruthyData kv.2) with
  | nil => simp [h]
  | cons e tl =>
    cases tl with
    | nil => simp [h]
    | cons e2 t => simp [h]

theorem flightsFiltered_eq_retained (legs : List Leg) :
    flightsFiltered legs = retainedSpec legs := by
  induction legs with
  | nil => rfl
  | cons l ls ih =>
    unfold flightsFiltered retainedSpec takeThroughLandedPast
    unfold retainedSpec at ih
    by_cases hr : legReliable l = true
    · by_cases hp : legLandedPast l = true
      · simp [hr, hp, List.filter_cons]
      · simp [hr, hp, List.filter_cons, ih]
    · simp only [Bool.not_eq_true] at hr
      simp [hr, List.filter_cons, ih]

/-- C3: the Aircraft Identifier's answer matches the claimed selection
rule on the retained subsequence (reliable legs up to and including the
first reliable `Landed`/`past` leg): one retained leg gives its
registration, several whose last is the `Landed`/`past` leg give the
second-to-last's, and every other shape gives no answer. -/
theorem c3_aircraft_reg_selection (legs : List Leg) :
    getAircraftRegFromFlight legs = specAircraftReg legs := by
  cases legs with
  | nil => rfl
  | cons l ls =>
    unfold getAircraftRegFromFlight specAircraftReg
    rw [flightsFiltered_eq_retained]
    simp only [List.isEmpty_cons, Bool.false_eq_true, if_false]
    cases h : retainedSpec (l :: ls) with
    | nil => simp [h]
    | cons a tl =>
      cases tl with
      | nil => simp [h]
      | cons b t =>
        have hlen : (a :: b :: t).length = t.length + 2 := by simp
        have h2 : 1 < (a :: b :: t).length := by simp
        simp only [h, hlen]
        have hne1 : (t.length + 2 == 1) = false := by simp
        have hgt : (t.length + 2 > 1) = True := by simp
        simp only [hne1, Bool.false_eq_true, if_false]
        cases hlast : (a :: b :: t).getLast? with
        | none => simp [List.getLast?_eq_getLast, hlast] at hlast ⊢
        | some last =>
          simp only [hlast]
          by_cases hlp : legLandedPast last = true
          · simp [hlp]
          · simp only [Bool.not_eq_true] at hlp
            simp [hlp]

theorem classifyTimeline_eq_spec (stime : Option DT) (std : DT) (now : Int) :
    classifyTimeline stime std now = specTimeline stime std now := by
  cases stime with
  | none => simp [classifyTimeline, specTimeline]
  | some t =>
    by_cases ht : t.utc < now
    · simp [classifyTimeline, specTimeline, ht]
    · simp [classifyTimeline, specTimeline, ht]

theorem classifyTimeline_total (stime : Option DT) (std : DT) (now : Int) :
    classifyTimeline stime std now = str "past" ∨
    classifyTimeline stime std now = str "future" ∨
    classifyTimeline stime std now = str "not past nor future" := by
  unfold classifyTimeline
  split
  · exact Or.inl rfl
  · split
    · exact Or.inr (Or.inl rfl)
    · exact Or.inr (Or.inr rfl)

theorem processRow_timeline (ap : Airports) (now : Int) (r : PyRow) (st : Option Str)
    (leg : Leg) (st' : Option Str) (h : processRow ap now r st = .ok (some leg, st')) :
    leg.timeline = classifyTimeline leg.status_time leg.std now := by
  unfold processRow at h
  repeat' (first | (split at h) | (simp only [] at h))
  all_goals simp_all [mkLeg]
  all_goals (obtain ⟨h1, h2⟩ := h; subst h1; rfl)

theorem processRows_timeline (ap : Airports) (now : Int) (rows : List PyRow) :
    ∀ (st : Option Str) (legs : List Leg), processRows ap now rows st = .ok legs →
      ∀ leg ∈ legs, leg.timeline = classifyTimeline leg.status_time leg.std now := by
  induction rows with
  | nil =>
    intro st legs h leg hleg
    simp only [processRows, Except.ok.injEq] at h
    subst h
    simp at hleg
  | cons r rest ih =>
    intro st legs h leg hleg
    unfold processRows at h
    cases hpr : processRow ap now r st with
    | error e => rw [hpr] at h; simp at h
    | ok p =>
      obtain ⟨res, st'⟩ := p
      rw [hpr] at h
      dsimp only at h
      cases hrr : processRows ap now rest st' with
      | error e => rw [hrr] at h; simp at h
      | ok legs' =>
        rw [hrr] at h
        cases res with
        | none =>
          simp only [Except.ok.injEq] at h
          subst h
          exact ih st' legs' hrr leg hleg
        | some l2 =>
          simp only [Except.ok.injEq] at h
          subst h
          rcases List.mem_cons.mp hleg with hEq | hmem
          · subst hEq
            exact processRow_timeline ap now r st leg st' hpr
          · exact ih st' legs' hrr leg hmem

/-- C5: every leg `data_validator` emits carries exactly one timeline
value, computed as the specification says: `past` when its status
timestamp exists and is strictly before now (regardless of scheduled
times), else `future` when its scheduled departure is strictly after
now, else the indeterminate label (spelled `not past nor future` by the
program). -/
theorem c5_timeline_classification (ap : Airports) (now : Int) (name : Str)
    (raw : List (Str × PyData)) (short : Bool) (legs : List Leg)
    (h : dataValidator ap now name raw short = .ok (some legs)) :
    ∀ leg ∈ legs, leg.timeline = specTimeline leg.status_time leg.std now ∧
      (leg.timeline = str "past" ∨ leg.timeline = str "future" ∨
       leg.timeline = str "not past nor future") := by
  intro leg hleg
  cases raw with
  | nil => simp [dataValidator] at h
  | cons kv tl =>
    cases tl with
    | cons kv2 tl2 => simp [dataValidator] at h
    | nil =>
      obtain ⟨k, data⟩ := kv
      unfold dataValidator at h
      simp only [List.isEmpty_cons, Bool.false_eq_true, if_false] at h
      by_cases hname : (name == str "flight_number" || name == str "aircraft_reg") = true
      · rw [if_pos hname] at h
        cases hnorm : normalizeData data with
        | error e => rw [hnorm] at h; simp at h
        | ok rows =>
          rw [hnorm] at h
          dsimp only at h
          cases hwin : (if short then pyWindow rows else .ok rows) with
          | error e => rw [hwin] at h; simp at h
          | ok rows2 =>
            rw [hwin] at h
            dsimp only at h
            cases hrr : processRows ap now rows2 none with
            | error e => rw [hrr] at h; simp at h
            | ok legs0 =>
              rw [hrr] at h
              simp only [Except.ok.injEq, Option.some.injEq] at h
              subst h
              have ht := processRows_timeline ap now rows2 none legs0 hrr leg hleg
              refine ⟨ht.trans (classifyTimeline_eq_spec _ _ _), ?_⟩
              rw [ht]
              exact classifyTimeline_total _ _ _
      · rw [if_neg hname] at h
        simp at h

/-- Witness for C5 at a concrete validated batch. -/
theorem c5_timeline_classification_witness :
    dataValidator testAirports nowUtc (str "flight_number")
      [(str "U21234", PyData.mat [rowLanded])] true = .ok (some [legLandedVal]) ∧
    (legLandedVal.timeline = specTimeline legLandedVal.status_time legLandedVal.std nowUtc ∧
      (legLandedVal.timeline = str "past" ∨ legLandedVal.timeline = str "future" ∨
       legLandedVal.timeline = str "not past nor future")) :=
  ⟨rfl, c5_timeline_classification testAirports nowUtc (str "flight_number")
    [(str "U21234", PyData.mat [rowLanded])] true [legLandedVal] rfl legLandedVal
    (List.mem_singleton.mpr rfl)⟩

theorem findFirstIdx_some_get (p : α → Bool) :
    ∀ (l : List α) (i : Nat), findFirstIdx p l = some i →
      ∃ x, l[i]? = some x ∧ p x = true := by
  intro l
  induction l with
  | nil => intro i h; simp [findFirstIdx] at h
  | cons x xs ih =>
    intro i h
    rw [findFirstIdx] at h
    cases hpx : p x with
    | true =>
      rw [if_pos hpx] at h
      obtain rfl : (0 : Nat) = i := Option.some.inj h
      exact ⟨x, by simp, hpx⟩
    | false =>
      rw [if_neg (by simp [hpx])] at h
      obtain ⟨j, hj, rfl⟩ := Option.map_eq_some'.mp h
      obtain ⟨y, hy, hpy⟩ := ih j hj
      exact ⟨y, by simpa using hy, hpy⟩

theorem findFirstIdx_lt_get (p : α → Bool) :
    ∀ (l : List α) (i : Nat), findFirstIdx p l = some i →
      ∀ j y, j < i → l[j]? = some y → p y = false := by
  intro l
  induction l with
  | nil => intro i h; simp [findFirstIdx] at h
  | cons x xs ih =>
    intro i h j y hj hy
    rw [findFirstIdx] at h
    cases hpx : p x with
    | true =>
      rw [if_pos hpx] at h
      obtain rfl : (0 : Nat) = i := Option.some.inj h
      omega
    | false =>
      rw [if_neg (by simp [hpx])] at h
      obtain ⟨i', hi', rfl⟩ := Option.map_eq_some'.mp h
      cases j with
      | zero =>
        simp only [List.getElem?_cons_zero, Option.some.injEq] at hy
        subst hy
        exact hpx
      | succ j' =>
        simp only [List.getElem?_cons_succ] at hy
        exact ih i' hi' j' y (by omega) hy

theorem findFirstIdx_none_get (p : α → Bool) :
    ∀ (l : List α), findFirstIdx p l = none →
      ∀ (j : Nat) (y : α), l[j]? = some y → p y = false := by
  intro l
  induction l with
  | nil => intro _ j y hy; simp at hy
  | cons x xs ih =>
    intro h j y hy
    rw [findFirstIdx] at h
    cases hpx : p x with
    | true => rw [if_pos hpx] at h; simp at h
    | false =>
      rw [if_neg (by simp [hpx])] at h
      simp only [Option.map_eq_none'] at h
      cases j with
      | zero =>
        simp only [List.getElem?_cons_zero, Option.some.injEq] at hy
        subst hy
        exact hpx
      | succ j' =>
        simp only [List.getElem?_cons_succ] at hy
        exact ih h j' y hy

theorem findFirstIdx_of_get (p : α → Bool) :
    ∀ (l : List α) (i : Nat) (x : α), l[i]? = some x → p x = true →
      (∀ j y, j < i → l[j]? = some y → p y = false) → findFirstIdx p l = some i := by
  intro l
  induction l with
  | nil => intro i x hx; simp at hx
  | cons a xs ih =>
    intro i x hx hp hmin
    cases i with
    | zero =>
      simp only [List.getElem?_cons_zero, Option.some.injEq] at hx
      subst hx
      rw [findFirstIdx, if_pos hp]
    | succ i' =>
      simp only [List.getElem?_cons_succ] at hx
      have ha : p a = false := hmin 0 a (Nat.succ_pos i') (by simp)
      rw [findFirstIdx, if_neg (by simp [ha])]
      have hxs : findFirstIdx p xs = some i' := by
        refine ih i' x hx hp ?_
        intro j y hj hy
        exact hmin (j + 1) y (by omega) (by simpa using hy)
      rw [hxs]
      rfl

theorem findFirstIdx_of_none (p : α → Bool) :
    ∀ (l : List α), (∀ (j : Nat) (y : α), l[j]? = some y → p y = false) →
      findFirstIdx p l = none := by
  intro l
  induction l with
  | nil => intro _; rfl
  | cons a xs ih =>
    intro hno
    have ha : p a = false := hno 0 a (by simp)
    rw [findFirstIdx, if_neg (by simp [ha])]
    have hxs : findFirstIdx p xs = none := by
      refine ih ?_
      intro j y hy
      exact hno (j + 1) y (by simpa using hy)
    rw [hxs]
    rfl

theorem findLastIdx_none_no_hit (p : α → Bool) :
    ∀ (l : List α), findLastIdx p l = none →
      ∀ (j : Nat) (y : α), l[j]? = some y → p y = false := by
  intro l
  induction l with
  | nil => intro _ j y hy; simp at hy
  | cons x xs ih =>
    intro h j y hy
    rw [findLastIdx] at h
    cases htl : findLastIdx p xs with
    | some i' => rw [htl] at h; simp at h
    | none =>
      rw [htl] at h
      cases hpx : p x with
      | true => rw [if_pos hpx] at h; simp at h
      | false =>
        cases j with
        | zero =>
          simp only [List.getElem?_cons_zero, Option.some.injEq] at hy
          subst hy
          exact hpx
        | succ j' =>
          simp only [List.getElem?_cons_succ] at hy
          exact ih htl j' y hy

theorem findLastIdx_gt_get (p : α → Bool) :
    ∀ (l : List α) (i : Nat), findLastIdx p l = some i →
      ∀ j y, i < j → l[j]? = some y → p y = false := by
  intro l
  induction l with
  | nil => intro i h; simp [findLastIdx] at h
  | cons x xs ih =>
    intro i h j y hj hy
    rw [findLastIdx] at h
    cases htl : findLastIdx p xs with
    | some i' =>
      rw [htl] at h
      obtain rfl : i' + 1 = i := Option.some.inj h
      cases j with
      | zero => omega
      | succ j' =>
        simp only [List.getElem?_cons_succ] at hy
        exact ih i' htl j' y (by omega) hy
    | none =>
      rw [htl] at h
      cases hpx : p x with
      | true =>
        rw [if_pos hpx] at h
        obtain rfl : (0 : Nat) = i := Option.some.inj h
        cases j with
        | zero => omega
        | succ j' =>
          simp only [List.getElem?_cons_succ] at hy
          exact findLastIdx_none_no_hit p xs htl j' y hy
      | false => rw [if_neg (by simp [hpx])] at h; simp at h

theorem findLastIdx_some_get (p : α → Bool) :
    ∀ (l : List α) (i : Nat), findLastIdx p l = some i →
      ∃ x, l[i]? = some x ∧ p x = true := by
  intro l
  induction l with
  | nil => intro i h; simp [findLastIdx] at h
  | cons x xs ih =>
    intro i h
    rw [findLastIdx] at h
    cases htl : findLastIdx p xs with
    | some i' =>
      rw [htl] at h
      obtain rfl : i' + 1 = i := Option.some.inj h
      obtain ⟨y, hy, hpy⟩ := ih i' htl
      exact ⟨y, by simpa using hy, hpy⟩
    | none =>
      rw [htl] at h
      cases hpx : p x with
      | true =>
        rw [if_pos hpx] at h
        obtain rfl : (0 : Nat) = i := Option.some.inj h
        exact ⟨x, by simp, hpx⟩
      | false => rw [if_neg (by simp [hpx])] at h; simp at h

theorem findLastIdx_getD_zero (p : α → Bool) (l : List α)
    (h : ∀ (j : Nat) (y : α), 1 ≤ j → l[j]? = some y → p y = false) :
    (findLastIdx p l).getD 0 = 0 := by
  cases l with
  | nil => rfl
  | cons x xs =>
    have hxs : findLastIdx p xs = none := by
      cases hcase : findLastIdx p xs with
      | none => rfl
      | some i =>
        obtain ⟨y, hy, hpy⟩ := findLastIdx_some_get p xs i hcase
        have := h (i + 1) y (by omega) (by simpa using hy)
        rw [this] at hpy
        cases hpy
    rw [findLastIdx, hxs]
    cases hpx : p x <;> simp [hpx]

theorem exMapM_ok_length (f : α → Except String β) :
    ∀ (l : List α) (res : List β), exMapM f l = .ok res → res.length = l.length := by
  intro l
  induction l with
  | nil => intro res h; simp only [exMapM, Except.ok.injEq] at h; subst h; rfl
  | cons x xs ih =>
    intro res h
    rw [exMapM] at h
    cases hfx : f x with
    | error e => rw [hfx] at h; simp at h
    | ok y =>
      rw [hfx] at h
      cases hxs : exMapM f xs with
      | error e => rw [hxs] at h; simp at h
      | ok ys =>
        rw [hxs] at h
        simp only [Except.ok.injEq] at h
        subst h
        simp [ih ys hxs]

theorem exMapM_ok_take (f : α → Except String β) :
    ∀ (l : List α) (res : List β) (b : Nat), exMapM f l = .ok res →
      exMapM f (l.take b) = .ok (res.take b) := by
  intro l
  induction l with
  | nil =>
    intro res b h
    simp only [exMapM, Except.ok.injEq] at h
    subst h
    simp [exMapM]
  | cons x xs ih =>
    intro res b h
    rw [exMapM] at h
    cases hfx : f x with
    | error e => rw [hfx] at h; simp at h
    | ok y =>
      rw [hfx] at h
      cases hxs : exMapM f xs with
      | error e => rw [hxs] at h; simp at h
      | ok ys =>
        rw [hxs] at h
        simp only [Except.ok.injEq] at h
        subst h
        cases b with
        | zero => simp [exMapM]
        | succ b' =>
          simp only [List.take_succ_cons]
          rw [exMapM, hfx, ih ys b' hxs]

theorem exMapM_ok_drop (f : α → Except String β) :
    ∀ (l : List α) (res : List β) (a : Nat), exMapM f l = .ok res →
      exMapM f (l.drop a) = .ok (res.drop a) := by
  intro l
  induction l with
  | nil =>
    intro res a h
    simp only [exMapM, Except.ok.injEq] at h
    subst h
    simp [exMapM]
  | cons x xs ih =>
    intro res a h
    rw [exMapM] at h
    cases hfx : f x with
    | error e => rw [hfx] at h; simp at h
    | ok y =>
      rw [hfx] at h
      cases hxs : exMapM f xs with
      | error e => rw [hxs] at h; simp at h
      | ok ys =>
        rw [hxs] at h
        simp only [Except.ok.injEq] at h
        subst h
        cases a with
        | zero => simp only [List.drop_zero]; rw [exMapM, hfx, hxs]
        | succ a' =>
          simp only [List.drop_succ_cons]
          exact ih ys a' hxs

theorem slice_getElem?_some (l : List α) (a b j : Nat) (y : α)
    (h : ((l.take b).drop a)[j]? = some y) : l[a + j]? = some y ∧ a + j < b := by
  rw [List.getElem?_drop] at h
  have hlt : a + j < (l.take b).length := by
    by_contra hge
    rw [List.getElem?_eq_none (by omega)] at h
    cases h
  have hb : a + j < b := by
    rw [List.length_take] at hlt
    omega
  rw [List.getElem?_take_of_lt hb] at h
  exact ⟨h, hb⟩

theorem slice_getElem?_eq (l : List α) (a b j : Nat) (h : a + j < b) :
    ((l.take b).drop a)[j]? = l[a + j]? := by
  rw [List.getElem?_drop, List.getElem?_take_of_lt h]

theorem windowBounds_slice (ss : List Str) :
    windowBounds ((ss.take (windowBounds ss).2).drop (windowBounds ss).1) =
      (0, ((ss.take (windowBounds ss).2).drop (windowBounds ss).1).length) := by
  have hP : ∀ t : List Str, windowBounds t =
      ((findLastIdx (fun s => (str "Scheduled").isPrefixOf s) t).getD 0,
       match findFirstIdx (fun s => (str "Landed").isPrefixOf s) t with
       | some i => i + 1
       | none => t.length) := fun t => rfl
  set P := fun s => (str "Scheduled").isPrefixOf s with hPdef
  set Q := fun s => (str "Landed").isPrefixOf s with hQdef
  cases hS : findLastIdx P ss with
  | none =>
    cases hF : findFirstIdx Q ss with
    | none =>
      have hwb : windowBounds ss = (0, ss.length) := by rw [hP ss, hS, hF]; rfl
      rw [hwb]
      simp only [List.take_length, List.drop_zero]
      rw [hP ss, hS, hF]
      rfl
    | some lf =>
      have hwb : windowBounds ss = (0, lf + 1) := by rw [hP ss, hS, hF]; rfl
      rw [hwb]
      simp only [List.drop_zero]
      obtain ⟨x, hx, hqx⟩ := findFirstIdx_some_get Q ss lf hF
      have hlf : lf < ss.length := by
        by_contra hge
        rw [List.getElem?_eq_none (by omega)] at hx
        cases hx
      have hlen : (ss.take (lf + 1)).length = lf + 1 := by
        rw [List.length_take]; omega
      have hfst : (findLastIdx P (ss.take (lf + 1))).getD 0 = 0 := by
        apply findLastIdx_getD_zero
        intro j y hj hy
        have hyy : ss[j]? = some y ∧ j < lf + 1 := by
          have := slice_getElem?_some ss 0 (lf + 1) j y (by simpa using hy)
          simpa using this
        exact findLastIdx_none_no_hit P ss hS j y hyy.1
      have hsnd : findFirstIdx Q (ss.take (lf + 1)) = some lf := by
        apply findFirstIdx_of_get Q _ lf x
        · have := slice_getElem?_eq ss 0 (lf + 1) lf (by omega)
          simpa [this] using hx
        · exact hqx
        · intro j y hj hy
          have hyy : ss[j]? = some y := by
            have := slice_getElem?_some ss 0 (lf + 1) j y (by simpa using hy)
            simpa using this.1
          exact findFirstIdx_lt_get Q ss lf hF j y hj hyy
      rw [hP (ss.take (lf + 1)), hfst, hsnd, hlen]
  | some s =>
    cases hF : findFirstIdx Q ss with
    | none =>
      have hwb : windowBounds ss = (s, ss.length) := by rw [hP ss, hS, hF]; rfl
      rw [hwb]
      simp only [List.take_length]
      have hfst : (findLastIdx P (ss.drop s)).getD 0 = 0 := by
        apply findLastIdx_getD_zero
        intro j y hj hy
        rw [List.getElem?_drop] at hy
        exact findLastIdx_gt_get P ss s hS (s + j) y (by omega) hy
      have hsnd : findFirstIdx Q (ss.drop s) = none := by
        apply findFirstIdx_of_none
        intro j y hy
        rw [List.getElem?_drop] at hy
        exact findFirstIdx_none_get Q ss hF (s + j) y hy
      rw [hP (ss.drop s), hfst, hsnd]
    | some lf =>
      have hwb : windowBounds ss = (s, lf + 1) := by rw [hP ss, hS, hF]; rfl
      rw [hwb]
      by_cases hsl : s ≤ lf
      · obtain ⟨x, hx, hqx⟩ := findFirstIdx_some_get Q ss lf hF
        have hlf : lf < ss.length := by
          by_contra hge
          rw [List.getElem?_eq_none (by omega)] at hx
          cases hx
        have hlen : ((ss.take (lf + 1)).drop s).length = lf - s + 1 := by
          rw [List.length_drop, List.length_take]; omega
        have hfst : (findLastIdx P ((ss.take (lf + 1)).drop s)).getD 0 = 0 := by
          apply findLastIdx_getD_zero
          intro j y hj hy
          obtain ⟨hyy, _⟩ := slice_getElem?_some ss s (lf + 1) j y hy
          exact findLastIdx_gt_get P ss s hS (s + j) y (by omega) hyy
        have hsnd : findFirstIdx Q ((ss.take (lf + 1)).drop s) = some (lf - s) := by
          apply findFirstIdx_of_get Q _ (lf - s) x
          · have heq := slice_getElem?_eq ss s (lf + 1) (lf - s) (by omega)
            rw [heq, show s + (lf - s) = lf by omega]
            exact hx
          · exact hqx
          · intro j y hj hy
            obtain ⟨hyy, _⟩ := slice_getElem?_some ss s (lf + 1) j y hy
            exact findFirstIdx_lt_get Q ss lf hF (s + j) y (by omega) hyy
        rw [hP ((ss.take (lf + 1)).drop s), hfst, hsnd, hlen]
      · have hempty : (ss.take (lf + 1)).drop s = [] := by
          apply List.eq_nil_of_length_eq_zero
          rw [List.length_drop, List.length_take]
          omega
        rw [hempty]
        rfl

/-- C8: the `short` windowing step is idempotent: whenever windowing a
row matrix succeeds, windowing the windowed rows returns them unchanged. -/
theorem c8_window_idempotent (rows w : List PyRow) (h : pyWindow rows = .ok w) :
    pyWindow w = .ok w := by
  unfold pyWindow at h ⊢
  cases hm : exMapM (fun r => pyGet r 3) rows with
  | error e => rw [hm] at h; simp at h
  | ok ss =>
    rw [hm] at h
    simp only [Except.ok.injEq] at h
    subst h
    have hmap : exMapM (fun r => pyGet r 3) ((rows.take (windowBounds ss).2).drop
        (windowBounds ss).1) =
        .ok ((ss.take (windowBounds ss).2).drop (windowBounds ss).1) :=
      exMapM_ok_drop _ _ _ _ (exMapM_ok_take _ _ _ _ hm)
    rw [hmap]
    dsimp only
    have hwb := windowBounds_slice ss
    rw [hwb]
    have hlen : ((ss.take (windowBounds ss).2).drop (windowBounds ss).1).length =
        ((rows.take (windowBounds ss).2).drop (windowBounds ss).1).length :=
      exMapM_ok_length _ _ _ hmap
    rw [hlen]
    simp

/-- Witness for C8 at a concrete row matrix. -/
theorem c8_window_idempotent_witness :
    pyWindow [rowSched, rowLanded] = .ok [rowSched, rowLanded] :=
  c8_window_idempotent [rowDiverted, rowSched, rowLanded, rowDiverted]
    [rowSched, rowLanded] rfl
